import Mathlib

/-!
Verification of the workflow-orchestration core of the Zava market-research
workflows (`workflow.py` and `zava-market-research/workflow.py`).

The repository's own executor logic (fan-out dispatch, insight aggregation,
the competitive-decision substring heuristic, the conditional predicate and
the two terminal executors) is embedded directly from the source.  The
fan-in aggregation barrier and the switch-case conditional router are
implemented inside the external `agent_framework` library, not in this
repository; those two components are modelled from the specification
(spec sections 4.3 and 4.4) and are marked as such in their doc comments.
-/

namespace ZavaWorkflow

/-- Role of a chat message (only `USER` and `ASSISTANT` occur in the source). -/
inductive Role where
  | user
  | assistant
deriving DecidableEq, Repr

/-- Embeds `ChatMessage(Role.USER, text=prompt)` as used in
`DispatchToExperts.dispatch`: a role together with the message text. -/
structure ChatMessage where
  role : Role
  text : String
deriving DecidableEq, Repr

/-- Embeds `AgentExecutorRequest(messages=[...], should_respond=...)`. -/
structure AgentExecutorRequest where
  messages : List ChatMessage
  shouldRespond : Bool
deriving DecidableEq, Repr

/-- Embeds `agent_run_response`: the source only reads its `.text` field
(the concatenated assistant text). -/
structure AgentRunResponse where
  text : String
deriving DecidableEq, Repr

/-- Embeds `AgentExecutorResponse(executor_id=..., agent_run_response=...)`. -/
structure AgentExecutorResponse where
  executorId : String
  agentRunResponse : AgentRunResponse
deriving DecidableEq, Repr

/-- One outbound send performed through `ctx.send_message(payload, target_id=...)`:
the payload together with the explicit target executor id. -/
structure Send (π : Type) where
  payload : π
  targetId : String
deriving DecidableEq, Repr

/-- Expert executor id, `workflow.py` line 493. -/
def LEGAL_COMPLIANCE_EXPERT_ID : String := "Legal/Compliance Researcher"

/-- Expert executor id, `workflow.py` line 494. -/
def COMMERCIAL_EXPERT_ID : String := "Commercial Researcher"

/-- Expert executor id, `workflow.py` line 495. -/
def PROCUREMENT_EXPERT_ID : String := "Procurement Researcher"

/-- The declared expert list `expert_ids = [compliance.id, commercial.id, procurement.id]`
(`workflow.py` line 592), which is also the declared predecessor order of the
fan-in edge group (line 645). -/
def expertIds : List String :=
  [LEGAL_COMPLIANCE_EXPERT_ID, COMMERCIAL_EXPERT_ID, PROCUREMENT_EXPERT_ID]

/-- Executor id of the negotiator terminal executor (`workflow.py` line 634). -/
def NEGOTIATOR_ID : String := "Negotiator & Summarizer"

/-- Executor id of the review/dismiss terminal executor (`workflow.py` line 638). -/
def REVIEW_AND_DISMISS_ID : String := "Review & Dismiss"

/-- Embeds `DispatchToExperts.dispatch` (`workflow.py` lines 459-467): wrap the
incoming prompt as a user `ChatMessage` and send one `AgentExecutorRequest`
with `should_respond=True` to each expert id, in list order. -/
def dispatch (expertIds : List String) (prompt : String) :
    List (Send AgentExecutorRequest) :=
  let initialMessage : ChatMessage := { role := Role.user, text := prompt }
  expertIds.map fun expertId =>
    { payload := { messages := [initialMessage], shouldRespond := true }
      targetId := expertId }

/-- Embeds the `AggregatedInsights` dataclass (`workflow.py` lines 470-483). -/
structure AggregatedInsights where
  compliance : String
  commercial : String
  procurement : String
deriving DecidableEq, Repr

/-- Embeds `AggregatedInsights.__str__` (`workflow.py` lines 478-483). -/
def AggregatedInsights.toDisplayString (a : AggregatedInsights) : String :=
  "Compliance Findings:\n" ++ a.compliance ++ "\n\n" ++
  "Commercial Angle:\n" ++ a.commercial ++ "\n\n" ++
  "Procurement Notes:\n" ++ a.procurement ++ "\n"

/-- Embeds `AggregateInsightsResult` (`workflow.py` lines 486-490): a
`CompetitiveResult` flag plus the structured aggregated insights. -/
structure AggregateInsightsResult where
  isCompetitive : Bool
  aggregatedInsights : AggregatedInsights
deriving DecidableEq, Repr

/-- Embeds `AggregateInsightsResult.__str__` (`workflow.py` lines 489-490),
which delegates to `AggregatedInsights.__str__`. -/
def AggregateInsightsResult.toDisplayString (r : AggregateInsightsResult) : String :=
  r.aggregatedInsights.toDisplayString

/-- Lookup in the Python dict built by
`for r in results: by_id[r.executor_id] = r.agent_run_response.text`
(`workflow.py` lines 508-511): a later assignment to the same key silently
overwrites an earlier one, so `by_id.get(k)` returns the text of the LAST
response in `results` whose `executor_id` equals `k`, or `none`. -/
def lastLookup (k : String) : List AgentExecutorResponse → Option String
  | [] => none
  | r :: rest =>
    match lastLookup k rest with
    | some v => some v
    | none => if r.executorId = k then some r.agentRunResponse.text else none

/-- Embeds the deterministic aggregation step of `AggregateInsights.aggregate`
(`workflow.py` lines 505-521): build `by_id`, then read the three expert
fields with `by_id.get(ID, "")`. -/
def aggregateInsightsOf (results : List AgentExecutorResponse) : AggregatedInsights :=
  { compliance := (lastLookup LEGAL_COMPLIANCE_EXPERT_ID results).getD ""
    commercial := (lastLookup COMMERCIAL_EXPERT_ID results).getD ""
    procurement := (lastLookup PROCUREMENT_EXPERT_ID results).getD "" }

/-- Embeds the `consolidated` string assembled by `AggregateInsights.aggregate`
(`workflow.py` lines 524-530). -/
def consolidatedText (a : AggregatedInsights) : String :=
  "Considering the consolidated Insights, decide whether this proposal is competitive or not competitive\n" ++
  "====================\n\n" ++
  "Compliance Findings:\n" ++ a.compliance ++ "\n\n====================\n\n" ++
  "Commercial Angle:\n" ++ a.commercial ++ "\n\n====================\n\n" ++
  "Procurement Notes:\n" ++ a.procurement ++ "\n"

/-- Python `str.lower()` on the message text, modelled characterwise
(the needles matched in the source are plain ASCII). -/
def lowerStr (s : String) : String := String.mk (s.toList.map Char.toLower)

/-- Embeds the competitive-decision heuristic of `AggregateInsights.aggregate`
(`workflow.py` lines 543-549):
`response_text = response.text.lower()` followed by
`'competitive' in response_text and 'not competitive' not in response_text`.
Python's `in` on strings is substring containment. -/
def isCompetitiveDecision (responseText : String) : Bool :=
  let t := (lowerStr responseText).toList
  decide ("competitive".toList <:+: t) && !decide ("not competitive".toList <:+: t)

/-- Embeds the full deterministic skeleton of `AggregateInsights.aggregate`
(`workflow.py` lines 505-553), with the chat-completion collaborator passed
in as the function `run` from the consolidated prompt to the evaluator's
response text. -/
def aggregate (run : String → String) (results : List AgentExecutorResponse) :
    AggregateInsightsResult :=
  let aggregated := aggregateInsightsOf results
  let consolidated := consolidatedText aggregated
  let responseText := run consolidated
  { isCompetitive := isCompetitiveDecision responseText
    aggregatedInsights := aggregated }

/-- The payload variants that can flow along an edge of this workflow: a
free-text prompt, an `AgentExecutorRequest`, an `AgentExecutorResponse`, a
bare `CompetitiveResult(is_competitive=...)`, or an `AggregateInsightsResult`
(which is a subclass of `CompetitiveResult` in the source, so Python's
`isinstance(message, CompetitiveResult)` accepts both of the last two). -/
inductive Message where
  | prompt (text : String)
  | request (r : AgentExecutorRequest)
  | response (r : AgentExecutorResponse)
  | competitiveResult (flag : Bool)
  | aggregateResult (r : AggregateInsightsResult)
deriving DecidableEq, Repr

/-- Python's `isinstance(message, CompetitiveResult)`: true exactly for the
`CompetitiveResult` class and its subclass `AggregateInsightsResult`. -/
def Message.isCompetitiveResultInstance : Message → Bool
  | .competitiveResult _ => true
  | .aggregateResult _ => true
  | _ => false

/-- The `is_competitive` flag carried by a `CompetitiveResult` payload
(`false` for payloads that are not `CompetitiveResult` instances). -/
def Message.competitiveFlag : Message → Bool
  | .competitiveResult flag => flag
  | .aggregateResult r => r.isCompetitive
  | _ => false

/-- Embeds the closure returned by `is_competitive()` (`workflow.py`
lines 445-450): `isinstance(message, CompetitiveResult) and message.is_competitive`. -/
def isCompetitiveCond (message : Message) : Bool :=
  message.isCompetitiveResultInstance && message.competitiveFlag

/-- One `Case(condition=..., target=...)` of a switch-case edge group. -/
structure EdgeCase where
  condition : Message → Bool
  target : String

/-- Modelled from the spec: the conditional router of a switch-case edge
group (spec section 4.4), whose implementation lives in the external
`agent_framework` library and not in this repository.  Evaluate `cases` in
declared order; the first predicate returning true selects its target; if
none returns true, select the mandatory default. -/
def routeTarget (cases : List EdgeCase) (dflt : String) (m : Message) : String :=
  match cases with
  | [] => dflt
  | c :: rest => if c.condition m then c.target else routeTarget rest dflt m

/-- Modelled from the spec: the sends performed by a switch-case edge group
for one incoming envelope — exactly the one send to the selected target
(spec section 4.4: "Exactly one send results — never zero, never more than
one"). -/
def routeSends (cases : List EdgeCase) (dflt : String) (m : Message) :
    List (Send Message) :=
  [{ payload := m, targetId := routeTarget cases dflt m }]

/-- The switch-case edge group declared after the aggregator
(`workflow.py` lines 646-652): one case routing to the negotiator when
`is_competitive()` holds, with the review/dismiss executor as default. -/
def aggregatorCases : List EdgeCase :=
  [{ condition := isCompetitiveCond, target := NEGOTIATOR_ID }]

/-- Embeds `NegotiatorSummarizerExecutor.handle` (`workflow.py` lines 598-613):
run the negotiation agent on `str(request)`, yield the response text as a
terminal output, and return an `AgentExecutorResponse` tagged with the
executor's own id.  The chat-completion collaborator is passed in as `run`. -/
def negotiatorHandle (selfId : String) (run : String → AgentRunResponse)
    (request : AggregateInsightsResult) : List String × AgentExecutorResponse :=
  let response := run request.toDisplayString
  ([response.text], { executorId := selfId, agentRunResponse := response })

/-- Embeds `ReviewAndDismissExecutor.handle` (`workflow.py` lines 615-630):
run the review agent on `str(request)`, yield the response text as a
terminal output, and return an `AgentExecutorResponse` tagged with the
executor's own id.  The chat-completion collaborator is passed in as `run`. -/
def reviewAndDismissHandle (selfId : String) (run : String → AgentRunResponse)
    (request : AggregateInsightsResult) : List String × AgentExecutorResponse :=
  let response := run request.toDisplayString
  ([response.text], { executorId := selfId, agentRunResponse := response })

/-- Modelled from the spec: the runtime errors of the aggregation barrier
(spec sections 4.3 and 7), raised by the engine in the external
`agent_framework` library. -/
inductive DeliveryError where
  | routingError (source : String)
  | duplicateDeliveryError (source : String)
deriving DecidableEq, Repr

/-- The keys (source executor ids) of a received-envelope association list. -/
def keysOf (r : List (String × String)) : List String := r.map Prod.fst

/-- First-match association lookup, used to assemble the fired batch in
declared-predecessor order (the received map has at most one entry per
source, so first match is the only match). -/
def lookupFirst (k : String) : List (String × String) → Option String
  | [] => none
  | (k', v) :: rest => if k' = k then some v else lookupFirst k rest

/-- Modelled from the spec: `BarrierState` of a fan-in join (spec section 3):
the declared predecessor set `expected` (in declared order) and the map
`received` of sources that have delivered (kept in arrival order). -/
structure Barrier where
  expected : List String
  received : List (String × String)
deriving DecidableEq, Repr

/-- A fresh barrier for a run: nothing received yet. -/
def Barrier.init (expected : List String) : Barrier :=
  { expected := expected, received := [] }

/-- The batch assembled when a barrier fires: one envelope per declared
predecessor, in declared order, regardless of arrival order
(spec section 4.3). -/
def assembleBatch (expected : List String) (received : List (String × String)) :
    List (String × String) :=
  expected.filterMap fun e => (lookupFirst e received).map fun v => (e, v)

/-- Modelled from the spec: one delivery into the aggregation barrier
(spec section 4.3).  A source outside the declared predecessor set fails
with `RoutingError`; a source already received fails with
`DuplicateDeliveryError` and the join is not re-fired; otherwise the
envelope is recorded, and when the received set completes the barrier
fires, returning the batch in declared-predecessor order. -/
def Barrier.deliver (b : Barrier) (s : String) (v : String) :
    Except DeliveryError (Barrier × Option (List (String × String))) :=
  if s ∉ b.expected then
    .error (.routingError s)
  else if s ∈ keysOf b.received then
    .error (.duplicateDeliveryError s)
  else
    let r := b.received ++ [(s, v)]
    if b.expected.all fun e => e ∈ keysOf r then
      .ok ({ expected := b.expected, received := r }, some (assembleBatch b.expected r))
    else
      .ok ({ expected := b.expected, received := r }, none)

/-- Modelled from the spec: feed a whole arrival sequence into the barrier,
collecting every batch the join fires with; the first delivery error aborts
the run (spec section 4.5: failures are fatal, no retry). -/
def Barrier.processAll (b : Barrier) :
    List (String × String) → Except DeliveryError (Barrier × List (List (String × String)))
  | [] => .ok (b, [])
  | (s, v) :: rest =>
    match b.deliver s v with
    | .error e => .error e
    | .ok (b', none) => b'.processAll rest
    | .ok (b', some batch) =>
      match b'.processAll rest with
      | .error e => .error e
      | .ok (b'', batches) => .ok (b'', batch :: batches)

/-! ### Helper lemmas -/

theorem lookupFirst_eq_none_iff (k : String) (r : List (String × String)) :
    lookupFirst k r = none ↔ k ∉ keysOf r := by
  induction r with
  | nil => simp [lookupFirst, keysOf]
  | cons p rest ih =>
    obtain ⟨k', v'⟩ := p
    by_cases hk : k' = k
    · subst hk
      simp [lookupFirst, keysOf]
    · simp [lookupFirst, hk, keysOf] at ih ⊢
      rw [ih]
      constructor
      · intro h
        exact ⟨fun he => hk he.symm, h⟩
      · intro h
        exact h.2

theorem lookupFirst_eq_some_of_mem (k v : String) (r : List (String × String))
    (hnd : (keysOf r).Nodup) (hmem : (k, v) ∈ r) : lookupFirst k r = some v := by
  induction r with
  | nil => simp at hmem
  | cons p rest ih =>
    obtain ⟨k', v'⟩ := p
    simp only [keysOf, List.map_cons, List.nodup_cons] at hnd
    rcases List.mem_cons.mp hmem with h | h
    · rw [Prod.mk.injEq] at h
      obtain ⟨hk, hv⟩ := h
      subst hk
      subst hv
      simp [lookupFirst]
    · have hk' : k' ≠ k := by
        intro he
        apply hnd.1
        rw [he]
        exact List.mem_map.mpr ⟨(k, v), h, rfl⟩
      simp only [lookupFirst, if_neg hk']
      exact ih hnd.2 h

theorem mem_of_lookupFirst_eq_some (k v : String) (r : List (String × String))
    (h : lookupFirst k r = some v) : (k, v) ∈ r := by
  induction r with
  | nil => simp [lookupFirst] at h
  | cons p rest ih =>
    obtain ⟨k', v'⟩ := p
    by_cases hk : k' = k
    · subst hk
      simp only [lookupFirst, if_pos, Option.some.injEq] at h
      subst h
      exact List.mem_cons_self _ _
    · simp only [lookupFirst, if_neg hk] at h
      exact List.mem_cons_of_mem _ (ih h)

theorem lookupFirst_perm (k : String) (r₁ r₂ : List (String × String))
    (hnd : (keysOf r₁).Nodup) (hp : r₁.Perm r₂) :
    lookupFirst k r₁ = lookupFirst k r₂ := by
  have hnd₂ : (keysOf r₂).Nodup := ((hp.map Prod.fst).nodup_iff).mp hnd
  cases h : lookupFirst k r₁ with
  | none =>
    have hk : k ∉ keysOf r₁ := (lookupFirst_eq_none_iff k r₁).mp h
    have hk₂ : k ∉ keysOf r₂ := fun hm =>
      hk ((hp.map Prod.fst).mem_iff.mpr hm)
    exact ((lookupFirst_eq_none_iff k r₂).mpr hk₂).symm
  | some v =>
    have hm : (k, v) ∈ r₂ := hp.mem_iff.mp (mem_of_lookupFirst_eq_some k v r₁ h)
    exact (lookupFirst_eq_some_of_mem k v r₂ hnd₂ hm).symm

theorem assembleBatch_perm (expected : List String) (r₁ r₂ : List (String × String))
    (hnd : (keysOf r₁).Nodup) (hp : r₁.Perm r₂) :
    assembleBatch expected r₁ = assembleBatch expected r₂ := by
  unfold assembleBatch
  apply List.filterMap_congr
  intro e _
  rw [lookupFirst_perm e r₁ r₂ hnd hp]

theorem assembleBatch_keys (expected : List String) (r : List (String × String))
    (hall : ∀ e ∈ expected, e ∈ keysOf r) :
    (assembleBatch expected r).map Prod.fst = expected := by
  induction expected with
  | nil => simp [assembleBatch]
  | cons e rest ih =>
    have he : e ∈ keysOf r := hall e (List.mem_cons_self _ _)
    cases hl : lookupFirst e r with
    | none => exact absurd ((lookupFirst_eq_none_iff e r).mp hl) (by simp [he])
    | some v =>
      simp only [assembleBatch, List.filterMap_cons, hl, Option.map_some']
      simp only [List.map_cons, List.cons.injEq, true_and]
      exact ih fun x hx => hall x (List.mem_cons_of_mem _ hx)

@[simp]
theorem keysOf_append (r₁ r₂ : List (String × String)) :
    keysOf (r₁ ++ r₂) = keysOf r₁ ++ keysOf r₂ := by
  simp [keysOf]

@[simp]
theorem keysOf_cons (p : String × String) (r : List (String × String)) :
    keysOf (p :: r) = p.1 :: keysOf r := rfl

@[simp]
theorem keysOf_nil : keysOf [] = [] := rfl

theorem processAll_no_fire (expected : List String) (arr : List (String × String)) :
    ∀ r : List (String × String),
    (keysOf (r ++ arr)).Nodup →
    (∀ k ∈ keysOf (r ++ arr), k ∈ expected) →
    (∃ e ∈ expected, e ∉ keysOf (r ++ arr)) →
    Barrier.processAll ⟨expected, r⟩ arr = .ok (⟨expected, r ++ arr⟩, []) := by
  induction arr with
  | nil =>
    intro r _ _ _
    simp [Barrier.processAll]
  | cons p rest ih =>
    intro r hnd hsub hinc
    obtain ⟨s, v⟩ := p
    have hskeys : s ∈ keysOf (r ++ (s, v) :: rest) := by simp
    have hsexp : s ∈ expected := hsub s hskeys
    have hsnr : s ∉ keysOf r := by
      rw [keysOf_append] at hnd
      have hdisj := (List.nodup_append.mp hnd).2.2
      intro hmem
      exact hdisj hmem (by simp)
    obtain ⟨e, heexp, hemiss⟩ := hinc
    have hnotall : ¬ (expected.all fun x => decide (x ∈ keysOf (r ++ [(s, v)]))) = true := by
      rw [List.all_eq_true]
      intro hall
      apply hemiss
      have he' := hall e heexp
      rw [decide_eq_true_iff] at he'
      simp only [keysOf_append, keysOf_cons, keysOf_nil] at he' ⊢
      rcases List.mem_append.mp he' with h | h
      · exact List.mem_append_left _ h
      · rcases List.mem_cons.mp h with h | h
        · exact List.mem_append_right _ (List.mem_cons.mpr (Or.inl h))
        · simp at h
    have hdel : Barrier.deliver ⟨expected, r⟩ s v =
        .ok (⟨expected, r ++ [(s, v)]⟩, none) := by
      simp only [Barrier.deliver]
      rw [if_neg (not_not_intro hsexp), if_neg hsnr, if_neg hnotall]
    simp only [Barrier.processAll]
    rw [hdel]
    have := ih (r ++ [(s, v)])
    rw [List.append_assoc, List.singleton_append] at this
    exact this hnd hsub ⟨e, heexp, hemiss⟩

theorem processAll_fires_last (expected : List String) (arr : List (String × String)) :
    ∀ r : List (String × String), arr ≠ [] →
    (keysOf (r ++ arr)).Nodup →
    (∀ k, k ∈ keysOf (r ++ arr) ↔ k ∈ expected) →
    Barrier.processAll ⟨expected, r⟩ arr =
      .ok (⟨expected, r ++ arr⟩, [assembleBatch expected (r ++ arr)]) := by
  induction arr with
  | nil =>
    intro r hne _ _
    exact absurd rfl hne
  | cons p rest ih =>
    intro r _ hnd hiff
    obtain ⟨s, v⟩ := p
    have hskeys : s ∈ keysOf (r ++ (s, v) :: rest) := by simp
    have hsexp : s ∈ expected := (hiff s).mp hskeys
    have hsnr : s ∉ keysOf r := by
      rw [keysOf_append] at hnd
      have hdisj := (List.nodup_append.mp hnd).2.2
      intro hmem
      exact hdisj hmem (by simp)
    cases rest with
    | nil =>
      have hall : (expected.all fun x => decide (x ∈ keysOf (r ++ [(s, v)]))) = true := by
        rw [List.all_eq_true]
        intro e he
        rw [decide_eq_true_iff]
        exact (hiff e).mpr he
      have hdel : Barrier.deliver ⟨expected, r⟩ s v =
          .ok (⟨expected, r ++ [(s, v)]⟩,
               some (assembleBatch expected (r ++ [(s, v)]))) := by
        simp only [Barrier.deliver]
        rw [if_neg (not_not_intro hsexp), if_neg hsnr, if_pos hall]
      simp only [Barrier.processAll]
      rw [hdel]
    | cons q rest₂ =>
      obtain ⟨s₂, v₂⟩ := q
      have hs₂exp : s₂ ∈ expected := (hiff s₂).mp (by simp)
      have hs₂fresh : s₂ ∉ keysOf (r ++ [(s, v)]) := by
        rw [keysOf_append] at hnd
        obtain ⟨hnd₁, hnd₂, hdisj⟩ := List.nodup_append.mp hnd
        simp only [keysOf_append, keysOf_cons, keysOf_nil]
        intro hmem
        rcases List.mem_append.mp hmem with h | h
        · exact hdisj h (by simp)
        · rcases List.mem_cons.mp h with h | h
          · simp only [keysOf_cons, List.nodup_cons] at hnd₂
            exact hnd₂.1 (by simp [h])
          · simp at h
      have hnotall : ¬ (expected.all fun x => decide (x ∈ keysOf (r ++ [(s, v)]))) = true := by
        rw [List.all_eq_true]
        intro hall
        have h := hall s₂ hs₂exp
        rw [decide_eq_true_iff] at h
        exact hs₂fresh h
      have hdel : Barrier.deliver ⟨expected, r⟩ s v =
          .ok (⟨expected, r ++ [(s, v)]⟩, none) := by
        simp only [Barrier.deliver]
        rw [if_neg (not_not_intro hsexp), if_neg hsnr, if_neg hnotall]
      simp only [Barrier.processAll]
      rw [hdel]
      have := ih (r ++ [(s, v)]) (by simp)
      rw [List.append_assoc, List.singleton_append] at this
      exact this hnd hiff

theorem lastLookup_eq_none_iff (k : String) (l : List AgentExecutorResponse) :
    lastLookup k l = none ↔ ∀ r ∈ l, r.executorId ≠ k := by
  induction l with
  | nil => simp [lastLookup]
  | cons a rest ih =>
    simp only [lastLookup]
    cases h : lastLookup k rest with
    | some v =>
      constructor
      · intro hcontra
        exact Option.noConfusion hcontra
      · intro hall
        have hnone : lastLookup k rest = none :=
          ih.mpr fun r hr => hall r (List.mem_cons_of_mem _ hr)
        rw [hnone] at h
        exact Option.noConfusion h
    | none =>
      by_cases ha : a.executorId = k
      · rw [if_pos ha]
        constructor
        · intro hcontra
          exact Option.noConfusion hcontra
        · intro hall
          exact absurd ha (hall a (List.mem_cons_self _ _))
      · simp only [if_neg ha, true_iff]
        intro r hr
        rcases List.mem_cons.mp hr with h' | h'
        · rw [h']; exact ha
        · exact (ih.mp h) r h'

theorem exists_of_lastLookup_eq_some (k v : String) (l : List AgentExecutorResponse)
    (h : lastLookup k l = some v) :
    ∃ r ∈ l, r.executorId = k ∧ r.agentRunResponse.text = v := by
  induction l with
  | nil => simp [lastLookup] at h
  | cons a rest ih =>
    simp only [lastLookup] at h
    cases h' : lastLookup k rest with
    | some v' =>
      rw [h'] at h
      obtain ⟨r, hr, hk, ht⟩ := ih (h'.trans h)
      exact ⟨r, List.mem_cons_of_mem _ hr, hk, ht⟩
    | none =>
      rw [h'] at h
      by_cases ha : a.executorId = k
      · rw [if_pos ha, Option.some.injEq] at h
        exact ⟨a, List.mem_cons_self _ _, ha, h⟩
      · rw [if_neg ha] at h
        exact Option.noConfusion h

theorem lastLookup_eq_some_of_mem (k : String) (l : List AgentExecutorResponse)
    (hnd : (l.map AgentExecutorResponse.executorId).Nodup)
    (r : AgentExecutorResponse) (hr : r ∈ l) (hk : r.executorId = k) :
    lastLookup k l = some r.agentRunResponse.text := by
  induction l with
  | nil => simp at hr
  | cons a rest ih =>
    simp only [List.map_cons, List.nodup_cons] at hnd
    rcases List.mem_cons.mp hr with h | h
    · subst h
      have hnone : lastLookup k rest = none := by
        rw [lastLookup_eq_none_iff]
        intro r' hr' hk'
        apply hnd.1
        rw [← hk] at hk'
        exact List.mem_map.mpr ⟨r', hr', hk'⟩
      simp only [lastLookup, hnone, if_pos hk]
    · have hsome := ih hnd.2 h
      simp only [lastLookup, hsome]

theorem lastLookup_perm (k : String) (l₁ l₂ : List AgentExecutorResponse)
    (hnd : (l₁.map AgentExecutorResponse.executorId).Nodup) (hp : l₁.Perm l₂) :
    lastLookup k l₁ = lastLookup k l₂ := by
  have hnd₂ : (l₂.map AgentExecutorResponse.executorId).Nodup :=
    ((hp.map AgentExecutorResponse.executorId).nodup_iff).mp hnd
  cases h : lastLookup k l₁ with
  | none =>
    have hall := (lastLookup_eq_none_iff k l₁).mp h
    exact ((lastLookup_eq_none_iff k l₂).mpr
      fun r hr => hall r (hp.mem_iff.mpr hr)).symm
  | some v =>
    obtain ⟨r, hr, hk, ht⟩ := exists_of_lastLookup_eq_some k v l₁ h
    rw [← ht]
    exact (lastLookup_eq_some_of_mem k l₂ hnd₂ r (hp.mem_iff.mp hr) hk).symm

theorem lastLookup_ignore (k : String) (pre post : List AgentExecutorResponse)
    (r : AgentExecutorResponse) (hk : r.executorId ≠ k) :
    lastLookup k (pre ++ r :: post) = lastLookup k (pre ++ post) := by
  induction pre with
  | nil =>
    simp only [List.nil_append, lastLookup]
    cases lastLookup k post with
    | some v => rfl
    | none => rw [if_neg hk]
  | cons a rest ih =>
    simp only [List.cons_append, lastLookup, List.append_eq, ih]

theorem lastLookup_append_last (k : String) (pre : List AgentExecutorResponse)
    (r : AgentExecutorResponse) :
    lastLookup k (pre ++ [r]) =
      if r.executorId = k then some r.agentRunResponse.text else lastLookup k pre := by
  induction pre with
  | nil =>
    simp only [List.nil_append, lastLookup]
  | cons a rest ih =>
    simp only [List.cons_append, lastLookup, List.append_eq, ih]
    by_cases hr : r.executorId = k
    · simp [hr]
    · simp [hr]

/-! ### Claim theorems -/

/-- Claim C3: dispatching one input prompt through a fan-out dispatcher
configured with N expert ids produces exactly N downstream sends, one per
expert id in list order, and every request carries the same payload: an
`AgentExecutorRequest` wrapping the same user `ChatMessage` with
`should_respond=True`. -/
theorem fan_out_dispatches_one_request_per_expert (ids : List String) (prompt : String) :
    (dispatch ids prompt).length = ids.length ∧
    (dispatch ids prompt).map Send.targetId = ids ∧
    ∀ s ∈ dispatch ids prompt,
      s.payload = { messages := [{ role := Role.user, text := prompt }],
                    shouldRespond := true } := by
  refine ⟨by simp [dispatch], by simp [dispatch, Function.comp_def], ?_⟩
  intro s hs
  simp only [dispatch, List.mem_map] at hs
  obtain ⟨eid, _, rfl⟩ := hs
  rfl

/-- Witness for C3 at the concrete expert list of the source and prompt `"p"`. -/
theorem fan_out_dispatches_one_request_per_expert_witness :
    (dispatch expertIds "p").length = expertIds.length ∧
    ({ payload := { messages := [{ role := Role.user, text := "p" }],
                    shouldRespond := true },
       targetId := LEGAL_COMPLIANCE_EXPERT_ID } : Send AgentExecutorRequest).payload =
      { messages := [{ role := Role.user, text := "p" }], shouldRespond := true } :=
  ⟨(fan_out_dispatches_one_request_per_expert expertIds "p").1,
   (fan_out_dispatches_one_request_per_expert expertIds "p").2.2 _ (by decide)⟩

/-- Claim C2: for every envelope arriving at the conditional edge group after
the aggregator, exactly one downstream send occurs; when `is_competitive`
returns true the envelope goes only to the negotiator, otherwise only to the
default review/dismiss executor.  (The switch-case dispatch itself is
modelled from spec section 4.4; the predicate and the declared cases are
embedded from the source.) -/
theorem conditional_group_routes_exactly_one (m : Message) :
    (routeSends aggregatorCases REVIEW_AND_DISMISS_ID m).length = 1 ∧
    (isCompetitiveCond m = true →
      routeSends aggregatorCases REVIEW_AND_DISMISS_ID m =
        [{ payload := m, targetId := NEGOTIATOR_ID }]) ∧
    (isCompetitiveCond m = false →
      routeSends aggregatorCases REVIEW_AND_DISMISS_ID m =
        [{ payload := m, targetId := REVIEW_AND_DISMISS_ID }]) := by
  refine ⟨rfl, ?_, ?_⟩
  · intro h
    simp [routeSends, routeTarget, aggregatorCases, h]
  · intro h
    simp [routeSends, routeTarget, aggregatorCases, h]

/-- Witness for C2: a competitive decision record goes to the negotiator and
a non-`CompetitiveResult` payload goes to the default. -/
theorem conditional_group_routes_exactly_one_witness :
    routeSends aggregatorCases REVIEW_AND_DISMISS_ID (Message.competitiveResult true) =
      [{ payload := Message.competitiveResult true, targetId := NEGOTIATOR_ID }] ∧
    routeSends aggregatorCases REVIEW_AND_DISMISS_ID (Message.prompt "x") =
      [{ payload := Message.prompt "x", targetId := REVIEW_AND_DISMISS_ID }] :=
  ⟨(conditional_group_routes_exactly_one (Message.competitiveResult true)).2.1 rfl,
   (conditional_group_routes_exactly_one (Message.prompt "x")).2.2 rfl⟩

/-- Claim C6: the competitive flag is derived by substring-matching the
lower-cased evaluator response: it is true iff the lowered text contains
`"competitive"` and does not contain `"not competitive"`; a text containing
neither phrase yields false, and one containing `"not competitive"` yields
false. -/
theorem competitive_flag_substring_heuristic (s : String) :
    (isCompetitiveDecision s = true ↔
      ("competitive".toList <:+: (lowerStr s).toList ∧
        ¬ "not competitive".toList <:+: (lowerStr s).toList)) ∧
    (¬ "competitive".toList <:+: (lowerStr s).toList → isCompetitiveDecision s = false) ∧
    ("not competitive".toList <:+: (lowerStr s).toList → isCompetitiveDecision s = false) := by
  have hmain : isCompetitiveDecision s = true ↔
      ("competitive".toList <:+: (lowerStr s).toList ∧
        ¬ "not competitive".toList <:+: (lowerStr s).toList) := by
    simp [isCompetitiveDecision]
  refine ⟨hmain, ?_, ?_⟩
  · intro h
    cases hb : isCompetitiveDecision s
    · rfl
    · exact absurd (hmain.mp hb).1 h
  · intro h
    cases hb : isCompetitiveDecision s
    · rfl
    · exact absurd h (hmain.mp hb).2

/-- Witness for C6: a response announcing "NOT competitive" and one with
neither phrase both yield a false flag. -/
theorem competitive_flag_substring_heuristic_witness :
    isCompetitiveDecision "The proposal is NOT competitive overall" = false ∧
    isCompetitiveDecision "no decision was reached" = false :=
  ⟨(competitive_flag_substring_heuristic "The proposal is NOT competitive overall").2.2
      (by decide),
   (competitive_flag_substring_heuristic "no decision was reached").2.1 (by decide)⟩

/-- Claim C7: each terminal-branch executor (negotiator and review/dismiss),
invoked with one aggregated-result input, emits exactly one terminal yield
(the collaborator's response text) and returns exactly one outbound
`AgentExecutorResponse` tagged with its own executor id. -/
theorem terminal_executors_yield_once_and_continue
    (runNeg runRev : String → AgentRunResponse) (request : AggregateInsightsResult) :
    ((negotiatorHandle NEGOTIATOR_ID runNeg request).1 =
        [(runNeg request.toDisplayString).text] ∧
      (negotiatorHandle NEGOTIATOR_ID runNeg request).1.length = 1 ∧
      (negotiatorHandle NEGOTIATOR_ID runNeg request).2.executorId = NEGOTIATOR_ID) ∧
    ((reviewAndDismissHandle REVIEW_AND_DISMISS_ID runRev request).1 =
        [(runRev request.toDisplayString).text] ∧
      (reviewAndDismissHandle REVIEW_AND_DISMISS_ID runRev request).1.length = 1 ∧
      (reviewAndDismissHandle REVIEW_AND_DISMISS_ID runRev request).2.executorId =
        REVIEW_AND_DISMISS_ID) :=
  ⟨⟨rfl, rfl, rfl⟩, ⟨rfl, rfl, rfl⟩⟩

/-- Claim C8: the routing predicate returned by `is_competitive()` is a pure
function of the payload: its value is exactly "is a `CompetitiveResult`
instance AND the `is_competitive` flag", and any two messages agreeing on
those two observations get the same boolean. -/
theorem predicate_depends_only_on_type_and_flag (m m₁ m₂ : Message) :
    isCompetitiveCond m = (m.isCompetitiveResultInstance && m.competitiveFlag) ∧
    (m₁.isCompetitiveResultInstance = m₂.isCompetitiveResultInstance →
      m₁.competitiveFlag = m₂.competitiveFlag →
      isCompetitiveCond m₁ = isCompetitiveCond m₂) := by
  refine ⟨rfl, ?_⟩
  intro h₁ h₂
  simp [isCompetitiveCond, h₁, h₂]

/-- Witness for C8: a bare `CompetitiveResult` and an `AggregateInsightsResult`
with the same flag evaluate identically. -/
theorem predicate_depends_only_on_type_and_flag_witness :
    isCompetitiveCond (Message.competitiveResult true) =
      isCompetitiveCond (Message.aggregateResult
        { isCompetitive := true,
          aggregatedInsights := { compliance := "", commercial := "", procurement := "" } }) :=
  (predicate_depends_only_on_type_and_flag (Message.prompt "")
      (Message.competitiveResult true)
      (Message.aggregateResult
        { isCompetitive := true,
          aggregatedInsights := { compliance := "", commercial := "", procurement := "" } })).2
    rfl rfl

/-- Claim C9: a payload that is not a `CompetitiveResult` instance makes the
condition false (the predicate is total, no exception), so such an envelope
is always routed to the default branch. -/
theorem non_instance_payload_routes_to_default (m : Message)
    (h : m.isCompetitiveResultInstance = false) :
    isCompetitiveCond m = false ∧
    routeTarget aggregatorCases REVIEW_AND_DISMISS_ID m = REVIEW_AND_DISMISS_ID := by
  have hc : isCompetitiveCond m = false := by
    simp [isCompetitiveCond, h]
  exact ⟨hc, by simp [routeTarget, aggregatorCases, hc]⟩

/-- Witness for C9 at a plain-string payload. -/
theorem non_instance_payload_routes_to_default_witness :
    isCompetitiveCond (Message.prompt "hello") = false ∧
    routeTarget aggregatorCases REVIEW_AND_DISMISS_ID (Message.prompt "hello") =
      REVIEW_AND_DISMISS_ID :=
  non_instance_payload_routes_to_default (Message.prompt "hello") rfl

/-- Claim C10: the aggregator tolerates missing and unknown predecessors:
a batch with no response from one of the three expert ids leaves that field
of the aggregate as the empty string, and a response from an unknown
executor id is ignored; aggregation is a total function, so it never fails
on such a batch. -/
theorem aggregator_tolerates_missing_and_unknown (results : List AgentExecutorResponse) :
    ((∀ r ∈ results, r.executorId ≠ LEGAL_COMPLIANCE_EXPERT_ID) →
      (aggregateInsightsOf results).compliance = "") ∧
    ((∀ r ∈ results, r.executorId ≠ COMMERCIAL_EXPERT_ID) →
      (aggregateInsightsOf results).commercial = "") ∧
    ((∀ r ∈ results, r.executorId ≠ PROCUREMENT_EXPERT_ID) →
      (aggregateInsightsOf results).procurement = "") ∧
    (∀ (pre post : List AgentExecutorResponse) (r : AgentExecutorResponse),
      r.executorId ∉ expertIds →
      aggregateInsightsOf (pre ++ r :: post) = aggregateInsightsOf (pre ++ post)) := by
  refine ⟨?_, ?_, ?_, ?_⟩
  · intro h
    simp [aggregateInsightsOf, (lastLookup_eq_none_iff _ _).mpr h]
  · intro h
    simp [aggregateInsightsOf, (lastLookup_eq_none_iff _ _).mpr h]
  · intro h
    simp [aggregateInsightsOf, (lastLookup_eq_none_iff _ _).mpr h]
  · intro pre post r hr
    simp only [expertIds, List.mem_cons, List.not_mem_nil, or_false, not_or] at hr
    obtain ⟨h₁, h₂, h₃⟩ := hr
    unfold aggregateInsightsOf
    rw [lastLookup_ignore _ _ _ _ h₁, lastLookup_ignore _ _ _ _ h₂,
        lastLookup_ignore _ _ _ _ h₃]

/-- Witness for C10: a batch holding only a response from an unknown executor
aggregates exactly like the empty batch, whose fields are all empty. -/
theorem aggregator_tolerates_missing_and_unknown_witness :
    aggregateInsightsOf
        [{ executorId := "stranger", agentRunResponse := { text := "x" } }] =
      aggregateInsightsOf [] ∧
    (aggregateInsightsOf []).compliance = "" :=
  ⟨(aggregator_tolerates_missing_and_unknown []).2.2.2 [] []
      { executorId := "stranger", agentRunResponse := { text := "x" } } (by decide),
   (aggregator_tolerates_missing_and_unknown []).1 (by simp)⟩

/-- Claim C1: over any arrival sequence in which each of the three declared
predecessors (compliance, commercial, procurement) delivers exactly once, the
fan-in barrier fires the aggregator exactly once — only at the last delivery,
so only after all three have delivered — and hands it the batch assembled in
declared-predecessor order; two arrival orders of the same deliveries produce
the same batch.  (The barrier is modelled from spec section 4.3; the declared
predecessor order `[compliance, commercial, procurement]` is the edge group
declared in `workflow.py` line 645.) -/
theorem fan_in_fires_once_after_all_in_declared_order
    (arr arr₂ : List (String × String))
    (hkeys : (keysOf arr).Perm expertIds) (hp : arr.Perm arr₂) :
    (Barrier.init expertIds).processAll arr =
      .ok ({ expected := expertIds, received := arr }, [assembleBatch expertIds arr]) ∧
    (assembleBatch expertIds arr).map Prod.fst = expertIds ∧
    (∀ k, k < arr.length →
      (Barrier.init expertIds).processAll (arr.take k) =
        .ok ({ expected := expertIds, received := arr.take k }, [])) ∧
    assembleBatch expertIds arr = assembleBatch expertIds arr₂ := by
  have hndexp : expertIds.Nodup := by decide
  have hnd : (keysOf arr).Nodup := hkeys.nodup_iff.mpr hndexp
  have hiff : ∀ k, k ∈ keysOf arr ↔ k ∈ expertIds := fun k => hkeys.mem_iff
  have hlen : arr.length = expertIds.length := by
    have h := hkeys.length_eq
    simpa [keysOf] using h
  have hne : arr ≠ [] := by
    intro h
    rw [h] at hlen
    simp [expertIds] at hlen
  refine ⟨?_, ?_, ?_, ?_⟩
  · have h := processAll_fires_last expertIds arr [] hne (by simpa using hnd)
      (by simpa using hiff)
    simpa [Barrier.init] using h
  · exact assembleBatch_keys expertIds arr fun e he => (hiff e).mpr he
  · intro k hk
    have hsub : List.Sublist (arr.take k) arr := List.take_sublist k arr
    have hndk : (keysOf (arr.take k)).Nodup := (hsub.map Prod.fst).nodup hnd
    have hsubk : ∀ x ∈ keysOf (arr.take k), x ∈ expertIds := by
      intro x hx
      obtain ⟨p, hp', rfl⟩ := List.mem_map.mp hx
      exact (hiff p.1).mp (List.mem_map.mpr ⟨p, hsub.mem hp', rfl⟩)
    have hinc : ∃ e ∈ expertIds, e ∉ keysOf (arr.take k) := by
      by_contra hcon
      push_neg at hcon
      have hsp : expertIds ⊆ keysOf (arr.take k) := fun e he => hcon e he
      have hle : expertIds.length ≤ (keysOf (arr.take k)).length :=
        (hndexp.subperm hsp).length_le
      have hlt : (keysOf (arr.take k)).length ≤ k := by
        simp [keysOf]
      omega
    have h := processAll_no_fire expertIds (arr.take k) [] (by simpa using hndk)
      (by simpa using hsubk) (by simpa using hinc)
    simpa [Barrier.init] using h
  · exact assembleBatch_perm expertIds arr arr₂ hnd hp

/-- Witness for C1: the three experts deliver out of declared order
(commercial, then procurement, then compliance); the barrier fires exactly
once, no proper prefix fires, and the batch equals the one produced by the
declared-order arrival. -/
theorem fan_in_fires_once_after_all_in_declared_order_witness :
    (Barrier.init expertIds).processAll
        [(COMMERCIAL_EXPERT_ID, "b"), (PROCUREMENT_EXPERT_ID, "c"),
         (LEGAL_COMPLIANCE_EXPERT_ID, "a")] =
      .ok ({ expected := expertIds,
             received := [(COMMERCIAL_EXPERT_ID, "b"), (PROCUREMENT_EXPERT_ID, "c"),
                          (LEGAL_COMPLIANCE_EXPERT_ID, "a")] },
           [assembleBatch expertIds
              [(COMMERCIAL_EXPERT_ID, "b"), (PROCUREMENT_EXPERT_ID, "c"),
               (LEGAL_COMPLIANCE_EXPERT_ID, "a")]]) ∧
    assembleBatch expertIds
        [(COMMERCIAL_EXPERT_ID, "b"), (PROCUREMENT_EXPERT_ID, "c"),
         (LEGAL_COMPLIANCE_EXPERT_ID, "a")] =
      assembleBatch expertIds
        [(LEGAL_COMPLIANCE_EXPERT_ID, "a"), (COMMERCIAL_EXPERT_ID, "b"),
         (PROCUREMENT_EXPERT_ID, "c")] :=
  ⟨(fan_in_fires_once_after_all_in_declared_order
      [(COMMERCIAL_EXPERT_ID, "b"), (PROCUREMENT_EXPERT_ID, "c"),
       (LEGAL_COMPLIANCE_EXPERT_ID, "a")]
      [(LEGAL_COMPLIANCE_EXPERT_ID, "a"), (COMMERCIAL_EXPERT_ID, "b"),
       (PROCUREMENT_EXPERT_ID, "c")]
      (by decide) (by decide)).1,
   (fan_in_fires_once_after_all_in_declared_order
      [(COMMERCIAL_EXPERT_ID, "b"), (PROCUREMENT_EXPERT_ID, "c"),
       (LEGAL_COMPLIANCE_EXPERT_ID, "a")]
      [(LEGAL_COMPLIANCE_EXPERT_ID, "a"), (COMMERCIAL_EXPERT_ID, "b"),
       (PROCUREMENT_EXPERT_ID, "c")]
      (by decide) (by decide)).2.2.2⟩

/-- Counterexample to C4 as stated: the claim asserts that a duplicate source
in the aggregated batch is an error rather than a silent overwrite, but the
aggregate handler embedded from `workflow.py` lines 508-511 (a Python dict
assignment per response) is total — it raises nothing — and maps a batch
holding two responses from the compliance expert to the LATER text
`"second"`, silently discarding the earlier delivery's value `"first"`. -/
theorem duplicate_in_batch_is_silent_overwrite :
    (aggregateInsightsOf
        [{ executorId := LEGAL_COMPLIANCE_EXPERT_ID, agentRunResponse := { text := "first" } },
         { executorId := LEGAL_COMPLIANCE_EXPERT_ID, agentRunResponse := { text := "second" } }]).compliance
      = "second" ∧
    ("second" : String) ≠ "first" := by
  exact ⟨rfl, by decide⟩

/-- Claim C4 (amended): a second delivery from an already-received predecessor
into the same fan-in barrier instance raises `DuplicateDeliveryError` and the
run aborts without the join firing (barrier modelled from spec section 4.3);
the aggregate handler itself, however, if it is ever handed a batch with a
duplicate source, silently overwrites: the LAST response from a source is the
one whose text ends up in the aggregate. -/
theorem duplicate_delivery_raises_and_does_not_refire
    (b : Barrier) (s v : String) (rest : List (String × String))
    (hexp : s ∈ b.expected) (hrec : s ∈ keysOf b.received) :
    b.deliver s v = .error (.duplicateDeliveryError s) ∧
    b.processAll ((s, v) :: rest) = .error (.duplicateDeliveryError s) ∧
    (∀ (pre : List AgentExecutorResponse) (r : AgentExecutorResponse),
      r.executorId = LEGAL_COMPLIANCE_EXPERT_ID →
      (aggregateInsightsOf (pre ++ [r])).compliance = r.agentRunResponse.text) := by
  have hdel : b.deliver s v = .error (.duplicateDeliveryError s) := by
    simp only [Barrier.deliver]
    rw [if_neg (not_not_intro hexp), if_pos hrec]
  refine ⟨hdel, ?_, ?_⟩
  · simp only [Barrier.processAll]
    rw [hdel]
  · intro pre r hr
    simp only [aggregateInsightsOf, lastLookup_append_last, hr, if_pos]
    rfl

/-- Witness for C4 (amended): the compliance expert delivers a second time
into a barrier that has already received it; the run aborts with
`DuplicateDeliveryError`, and the dict-based aggregate keeps the last text. -/
theorem duplicate_delivery_raises_and_does_not_refire_witness :
    Barrier.deliver
        { expected := expertIds, received := [(LEGAL_COMPLIANCE_EXPERT_ID, "a")] }
        LEGAL_COMPLIANCE_EXPERT_ID "a2" =
      .error (.duplicateDeliveryError LEGAL_COMPLIANCE_EXPERT_ID) ∧
    (aggregateInsightsOf
        [{ executorId := LEGAL_COMPLIANCE_EXPERT_ID, agentRunResponse := { text := "x" } },
         { executorId := LEGAL_COMPLIANCE_EXPERT_ID, agentRunResponse := { text := "y" } }]).compliance
      = "y" :=
  ⟨(duplicate_delivery_raises_and_does_not_refire
      { expected := expertIds, received := [(LEGAL_COMPLIANCE_EXPERT_ID, "a")] }
      LEGAL_COMPLIANCE_EXPERT_ID "a2" [] (by decide) (by decide)).1,
   (duplicate_delivery_raises_and_does_not_refire
      { expected := expertIds, received := [(LEGAL_COMPLIANCE_EXPERT_ID, "a")] }
      LEGAL_COMPLIANCE_EXPERT_ID "a2" [] (by decide) (by decide)).2.2
      [{ executorId := LEGAL_COMPLIANCE_EXPERT_ID, agentRunResponse := { text := "x" } }]
      { executorId := LEGAL_COMPLIANCE_EXPERT_ID, agentRunResponse := { text := "y" } } rfl⟩

/-- Counterexample to C5 as stated: the two batches below are permutations of
each other holding the same set of (executor_id, text) pairs, yet the
dict-based aggregation keeps whichever duplicate-source response came last,
so the two orderings produce different `AggregatedInsights` values. -/
theorem aggregate_not_invariant_under_all_permutations :
    List.Perm
      ([{ executorId := LEGAL_COMPLIANCE_EXPERT_ID, agentRunResponse := { text := "first" } },
        { executorId := LEGAL_COMPLIANCE_EXPERT_ID, agentRunResponse := { text := "second" } }]
        : List AgentExecutorResponse)
      [{ executorId := LEGAL_COMPLIANCE_EXPERT_ID, agentRunResponse := { text := "second" } },
       { executorId := LEGAL_COMPLIANCE_EXPERT_ID, agentRunResponse := { text := "first" } }] ∧
    aggregateInsightsOf
        [{ executorId := LEGAL_COMPLIANCE_EXPERT_ID, agentRunResponse := { text := "first" } },
         { executorId := LEGAL_COMPLIANCE_EXPERT_ID, agentRunResponse := { text := "second" } }] ≠
      aggregateInsightsOf
        [{ executorId := LEGAL_COMPLIANCE_EXPERT_ID, agentRunResponse := { text := "second" } },
         { executorId := LEGAL_COMPLIANCE_EXPERT_ID, agentRunResponse := { text := "first" } }] := by
  constructor
  · exact List.Perm.swap _ _ _
  · decide

/-- Claim C5 (amended): for batches whose executor ids are pairwise distinct
— which is what the fan-in barrier delivers, since a duplicate source is an
error — aggregation is order-independent: any two permutations of the same
responses construct the same `AggregatedInsights` value and the same
consolidated text. -/
theorem aggregate_perm_invariant_on_distinct_sources
    (l₁ l₂ : List AgentExecutorResponse)
    (hnd : (l₁.map AgentExecutorResponse.executorId).Nodup) (hp : l₁.Perm l₂) :
    aggregateInsightsOf l₁ = aggregateInsightsOf l₂ ∧
    consolidatedText (aggregateInsightsOf l₁) = consolidatedText (aggregateInsightsOf l₂) := by
  have h : aggregateInsightsOf l₁ = aggregateInsightsOf l₂ := by
    unfold aggregateInsightsOf
    rw [lastLookup_perm _ _ _ hnd hp, lastLookup_perm _ _ _ hnd hp,
        lastLookup_perm _ _ _ hnd hp]
  exact ⟨h, by rw [h]⟩

/-- Witness for C5 (amended): the compliance and commercial siblings complete
in either order; both orderings yield identical aggregated output. -/
theorem aggregate_perm_invariant_on_distinct_sources_witness :
    aggregateInsightsOf
        [{ executorId := LEGAL_COMPLIANCE_EXPERT_ID, agentRunResponse := { text := "a" } },
         { executorId := COMMERCIAL_EXPERT_ID, agentRunResponse := { text := "b" } }] =
      aggregateInsightsOf
        [{ executorId := COMMERCIAL_EXPERT_ID, agentRunResponse := { text := "b" } },
         { executorId := LEGAL_COMPLIANCE_EXPERT_ID, agentRunResponse := { text := "a" } }] :=
  (aggregate_perm_invariant_on_distinct_sources
      [{ executorId := LEGAL_COMPLIANCE_EXPERT_ID, agentRunResponse := { text := "a" } },
       { executorId := COMMERCIAL_EXPERT_ID, agentRunResponse := { text := "b" } }]
      [{ executorId := COMMERCIAL_EXPERT_ID, agentRunResponse := { text := "b" } },
       { executorId := LEGAL_COMPLIANCE_EXPERT_ID, agentRunResponse := { text := "a" } }]
      (by decide) (List.Perm.swap _ _ _)).1

end ZavaWorkflow
